import Mathlib

/-!
Verification of the B2SHARE Nagios probe (`check_b2share.py`).

The probe's pure core is embedded shallowly: Python JSON-like values become
the inductive `Json`, Python dicts become association lists in insertion
order, the mutating `report` list of `sanitize_rdm_metadata` becomes an
explicitly returned list of appended paths, and the accumulating `found`
list of `scan_vocab_extras` becomes an explicit accumulator argument.
Fallible code (`build_metadata_schema`, the attribute lookups in `main`)
returns `Except`.
-/

/-- A JSON-like value as produced by `requests.Response.json()`: mappings
(in insertion order), sequences, strings, integers, booleans, null. -/
inductive Json where
  | obj  : List (String × Json) → Json
  | arr  : List Json → Json
  | str  : String → Json
  | num  : Int → Json
  | bool : Bool → Json
  | null : Json
deriving Repr

/-- The fields of a mapping node (`[]` for non-mappings). -/
def Json.objFields : Json → List (String × Json)
  | .obj fs => fs
  | _ => []

/-- `True` exactly on mapping nodes (`isinstance(obj, dict)`). -/
def Json.isObj : Json → Bool
  | .obj _ => true
  | _ => false

/-- `True` exactly on scalar (non-mapping, non-sequence) nodes. -/
def Json.isScalar : Json → Bool
  | .obj _ => false
  | .arr _ => false
  | _ => true

/-- `UI_EXTRA_KEYS` (check_b2share.py lines 45-55): the fixed set of
vocabulary-enrichment key names. -/
def UI_EXTRA_KEYS : List String :=
  ["icon", "props", "tags", "scheme", "uri", "identifier", "identifiers",
   "description", "links"]

/-- `f"{path}.{k}" if path else k` (check_b2share.py line 66). -/
def joinPath (path k : String) : String :=
  if path == "" then k else path ++ "." ++ k

/-- `"id" in obj` for a mapping given as an association list. -/
def hasIdKey (fields : List (String × Json)) : Bool :=
  fields.any (fun p => p.1 == "id")

mutual
/-- `sanitize_rdm_metadata` (check_b2share.py lines 57-90).  Returns the
cleaned tree together with the list of paths appended to `report`, in
append order (the `debug` printing to stderr carries no data and is not
modelled). -/
def sanitize_rdm_metadata : Json → String → Json × List String
  | .obj fields, path =>
      let r := sanitizeFields (hasIdKey fields) fields path
      (.obj r.1, r.2)
  | .arr elems, path =>
      let r := sanitizeElems elems path
      (.arr r.1, r.2)
  | j, _ => (j, [])

/-- The `for k, v in obj.items()` loop of `sanitize_rdm_metadata`;
`hasId` is `"id" in obj` of the original (unmutated) mapping. -/
def sanitizeFields (hasId : Bool) : List (String × Json) → String → List (String × Json) × List String
  | [], _ => ([], [])
  | (k, v) :: rest, path =>
      let np := joinPath path k
      if UI_EXTRA_KEYS.contains k then
        let r := sanitizeFields hasId rest path
        (r.1, np :: r.2)
      else if hasId && k == "title" then
        let r := sanitizeFields hasId rest path
        (r.1, np :: r.2)
      else
        let rv := sanitize_rdm_metadata v np
        let r := sanitizeFields hasId rest path
        ((k, rv.1) :: r.1, rv.2 ++ r.2)

/-- The list comprehension of `sanitize_rdm_metadata` over a sequence. -/
def sanitizeElems : List Json → String → List Json × List String
  | [], _ => ([], [])
  | v :: rest, path =>
      let rv := sanitize_rdm_metadata v (path ++ "[]")
      let r := sanitizeElems rest path
      (rv.1 :: r.1, rv.2 ++ r.2)
end

mutual
/-- `scan_vocab_extras` (check_b2share.py lines 93-117): read-only
detector; `found` is the accumulator list the Python code mutates. -/
def scan_vocab_extras : Json → String → List String → List String
  | .obj fields, path, found => scanFields (hasIdKey fields) fields path found
  | .arr elems, path, found => scanElems elems path found
  | _, _, found => found

/-- The `for k, v in obj.items()` loop of `scan_vocab_extras`. -/
def scanFields (hasId : Bool) : List (String × Json) → String → List String → List String
  | [], _, found => found
  | (k, v) :: rest, path, found =>
      let np := joinPath path k
      if UI_EXTRA_KEYS.contains k then
        scanFields hasId rest path (found ++ [np])
      else if hasId && k == "title" then
        scanFields hasId rest path (found ++ [np])
      else
        scanFields hasId rest path (scan_vocab_extras v np found)

/-- The `for v in obj` loop of `scan_vocab_extras` over a sequence. -/
def scanElems : List Json → String → List String → List String
  | [], _, found => found
  | v :: rest, path, found => scanElems rest path (scan_vocab_extras v (path ++ "[]") found)
end

mutual
/-- A tree is free of vocabulary extras: no mapping node anywhere in it has
a direct key in `UI_EXTRA_KEYS`, nor a direct key `title` alongside a
direct key `id`. -/
def NoVocabExtras : Json → Bool
  | .obj fields => noVocabFields (hasIdKey fields) fields
  | .arr elems => noVocabElems elems
  | _ => true

/-- `NoVocabExtras` over the fields of one mapping node; `hasId` is
`"id" in obj` for that node. -/
def noVocabFields (hasId : Bool) : List (String × Json) → Bool
  | [] => true
  | (k, v) :: rest =>
      !(UI_EXTRA_KEYS.contains k) && !(hasId && k == "title") &&
        NoVocabExtras v && noVocabFields hasId rest

/-- `NoVocabExtras` over the elements of a sequence node. -/
def noVocabElems : List Json → Bool
  | [] => true
  | v :: rest => NoVocabExtras v && noVocabElems rest
end

mutual
/-- Every key that the removal rules strip anywhere in `t` (visited from
prefix `path`) has its fully qualified path in the list `R`. -/
def ReportedIn (R : List String) : Json → String → Bool
  | .obj fields, path => reportedFields R (hasIdKey fields) fields path
  | .arr elems, path => reportedElems R elems path
  | _, _ => true

/-- `ReportedIn` over the fields of one mapping node. -/
def reportedFields (R : List String) (hasId : Bool) : List (String × Json) → String → Bool
  | [], _ => true
  | (k, v) :: rest, path =>
      let np := joinPath path k
      (if UI_EXTRA_KEYS.contains k then R.contains np
       else if hasId && k == "title" then R.contains np
       else ReportedIn R v np) && reportedFields R hasId rest path

/-- `ReportedIn` over the elements of a sequence node. -/
def reportedElems (R : List String) : List Json → String → Bool
  | [], _ => true
  | v :: rest, path => ReportedIn R v (path ++ "[]") && reportedElems R rest path
end

/-! ### Python dict operations -/

/-- `d.get(k)`: the value stored under `k`, if any. -/
def dictGet (d : List (String × Json)) (k : String) : Option Json :=
  (d.find? (fun p => p.1 == k)).map (fun p => p.2)

/-- `k in d` for a dict. -/
def dictHasKey (d : List (String × Json)) (k : String) : Bool :=
  d.any (fun p => p.1 == k)

/-- `d[k] = v`: replace the value in place if `k` is present, else append. -/
def dictSet (d : List (String × Json)) (k : String) (v : Json) : List (String × Json) :=
  if dictHasKey d k then d.map (fun p => if p.1 == k then (k, v) else p)
  else d ++ [(k, v)]

/-- `d.update(other)`: assign each of `other`'s items into `d` in order. -/
def dictUpdate (d other : List (String × Json)) : List (String × Json) :=
  other.foldl (fun acc p => dictSet acc p.1 p.2) d

/-- Python truthiness of a JSON-like value (empty containers, empty
string, zero, `False` and `None` are falsy). -/
def isTruthy : Json → Bool
  | .obj fs => !fs.isEmpty
  | .arr es => !es.isEmpty
  | .str s => !(s == "")
  | .num n => !(n == 0)
  | .bool b => b
  | .null => false

/-- `x or default` on an optional lookup result: the looked-up value when
present and truthy, else `default` (Python's `None` maps to a missing
lookup here). -/
def pyOr (v : Option Json) (default : Json) : Json :=
  match v with
  | some j => if isTruthy j then j else default
  | none => default

/-- The Python exceptions the embedded fallible code can raise. -/
inductive PyError where
  | keyError
  | attributeError
deriving Repr, DecidableEq

/-! ### build_metadata_schema and finalize_version -/

/-- The draft-07 meta-schema URI used as the `$schema` default. -/
def draft07Uri : String := "http://json-schema.org/draft-07/schema#"

/-- `build_metadata_schema` (check_b2share.py lines 128-139).
`props = parent_schema.get("properties") or {}`; then `props.get("metadata")`
(an `AttributeError` when `props` is a truthy non-mapping); a `KeyError`
when the result is not a mapping; else a new dict
`{"$schema": parent_schema.get("$schema", draft07)}` updated with the
metadata sub-schema. -/
def build_metadata_schema (parent_schema : List (String × Json)) : Except PyError (List (String × Json)) :=
  match pyOr (dictGet parent_schema "properties") (.obj []) with
  | .obj propFields =>
      match dictGet propFields "metadata" with
      | some (.obj mdFields) =>
          .ok (dictUpdate
                [("$schema", (dictGet parent_schema "$schema").getD (.str draft07Uri))]
                mdFields)
      | _ => .error .keyError
  | _ => .error .attributeError

/-- `finalize_version` (check_b2share.py lines 160-165). -/
def finalize_version (bucket_json : List (String × Json)) : String :=
  if dictHasKey bucket_json "entries" then "v3"
  else if dictHasKey bucket_json "contents" then "v2"
  else "v2"

/-! ### The probe steps of main modelled for the claims -/

/-- `total = search.get("hits", {}).get("total", 0)` (check_b2share.py
line 244). `dict.get(k, default)` substitutes the default only when the
key is absent, so a `hits` key that is present with a non-mapping value
(falsy ones such as `null`, `0`, `False`, `""`, `[]` included) reaches
the second `.get` and raises `AttributeError`. -/
def searchTotal (search : List (String × Json)) : Except PyError Json :=
  match (dictGet search "hits").getD (.obj []) with
  | .obj hitsFields => .ok ((dictGet hitsFields "total").getD (.num 0))
  | _ => .error .attributeError

/-- `total == 0` in Python: integer zero and `False` compare equal to 0. -/
def pyEqZero : Json → Bool
  | .num n => n == 0
  | .bool b => !b
  | _ => false

/-- `str()` of a JSON-like value as used by the `f"hits: {total}"` line.
Exact for scalars; container renderings are never exercised by the
claims (the zero-hits branch requires a zero-comparing scalar). -/
def pyStr : Json → String
  | .num n => toString n
  | .str s => s
  | .bool true => "True"
  | .bool false => "False"
  | .null => "None"
  | .obj _ => "<dict>"
  | .arr _ => "<list>"

def critNoRecordsLine : String :=
  "CRITICAL: It seems that there are no records stored in this B2SHARE instance"

def dashesLine : String := "---------------------------"

def noResultsStderrLine : String := "No search results returned by the query."

/-- Outcome of one probe step: either the process exits with the given
remaining stdout/stderr lines and exit code, or execution continues. -/
inductive StepResult where
  | exited (stdout : List String) (stderr : List String) (code : Nat)
  | continued (stdout : List String) (stderr : List String)
deriving Repr

/-- The post-search step of `main` (check_b2share.py lines 244-256): print
`hits: <total>`, and on zero total either exit CRITICAL(2) when
`--error-if-no-records-present` is set or exit OK(0); on nonzero total
continue to the record fetch. `verbosity` is the clamped count. -/
def searchStep (search : List (String × Json)) (errorIfEmpty : Bool) (verbosity : Nat) :
    Except PyError StepResult :=
  match searchTotal search with
  | .error e => .error e
  | .ok total =>
      let hitsLine := "hits: " ++ pyStr total
      if pyEqZero total then
        let errLines := if 1 < verbosity then [noResultsStderrLine] else []
        if errorIfEmpty then
          .ok (.exited [hitsLine, critNoRecordsLine] errLines 2)
        else
          .ok (.exited ([hitsLine] ++ (if 0 < verbosity then [dashesLine] else []) ++ ["OK"])
                errLines 0)
      else
        .ok (.continued [hitsLine] [])

/-! ### A mutual induction principle for Json trees -/

/-- The premises of simultaneous induction over a `Json` tree, its field
lists and its element lists. -/
structure JsonMotives (P : Json → Prop) (F : List (String × Json) → Prop)
    (E : List Json → Prop) : Prop where
  hobj : ∀ fs, F fs → P (.obj fs)
  harr : ∀ es, E es → P (.arr es)
  hstr : ∀ s, P (.str s)
  hnum : ∀ n, P (.num n)
  hbool : ∀ b, P (.bool b)
  hnull : P .null
  fnil : F []
  fcons : ∀ k v rest, P v → F rest → F ((k, v) :: rest)
  enil : E []
  econs : ∀ v rest, P v → E rest → E (v :: rest)

/-- Outcome of the non-strict validation attempt: `propagated` is an
exception escaping the block (always `none`: `ValidationError` is
caught), plus the stderr lines it emits. -/
structure NonStrictOutcome where
  propagated : Option String
  stderrLines : List String
deriving Repr

/-- The `try: jsonschema.validate ... except ValidationError` block of the
lenient (non-strict) v3 path (check_b2share.py lines 358-363).
`validationError` abstracts the outcome of the external
`jsonschema.validate` call: `some msg` when it raises a
`ValidationError` with message `msg`. -/
def nonStrictValidate (validationError : Option String) (verbosity : Nat) : NonStrictOutcome :=
  match validationError with
  | none => ⟨none, []⟩
  | some msg =>
      ⟨none,
       if 2 < verbosity then
         ["WARNING: Non-strict metadata validation warning:", "Details: " ++ msg]
       else []⟩


/-- The removal predicate of `sanitize_rdm_metadata` at one mapping node
whose `"id" in obj` test is `hasId`. -/
def removedKey (hasId : Bool) (k : String) : Bool :=
  UI_EXTRA_KEYS.contains k || (hasId && k == "title")

/-! ### Concrete schemas used by the build_metadata_schema claims -/

/-- A parent schema whose metadata sub-schema itself carries a `$schema`
key (legal JSON Schema: sub-schemas may embed one). -/
def parentWithInnerSchema : List (String × Json) :=
  [("$schema", Json.str "http://json-schema.org/draft-07/schema#"),
   ("properties", Json.obj [("metadata", Json.obj
      [("$schema", Json.str "https://example.org/other-schema"),
       ("type", Json.str "object")])])]

/-- A plain parent schema without a top-level `$schema`. -/
def parentPlain : List (String × Json) :=
  [("properties", Json.obj [("metadata", Json.obj [("type", Json.str "object")])])]

example : sanitize_rdm_metadata
    (.obj [("rights", .obj [("id", .str "cc-by"), ("title", .str "CC BY"),
                            ("description", .str "d"), ("icon", .str "x")])]) "" =
    (.obj [("rights", .obj [("id", .str "cc-by")])],
     ["rights.title", "rights.description", "rights.icon"]) := rfl

example : scan_vocab_extras
    (.obj [("rights", .obj [("id", .str "cc-by"), ("title", .str "CC BY"),
                            ("description", .str "d"), ("icon", .str "x")])]) "" [] =
    ["rights.title", "rights.description", "rights.icon"] := rfl

/-! ### A mutual induction principle for Json trees: eliminators -/

mutual
/-- Induction over a `Json` tree from the motives `M`. -/
theorem json_induct {P F E} (M : JsonMotives P F E) : ∀ t : Json, P t
  | .obj fs => M.hobj fs (fields_induct M fs)
  | .arr es => M.harr es (elems_induct M es)
  | .str s => M.hstr s
  | .num n => M.hnum n
  | .bool b => M.hbool b
  | .null => M.hnull

/-- Induction over a field list from the motives `M`. -/
theorem fields_induct {P F E} (M : JsonMotives P F E) : ∀ fs : List (String × Json), F fs
  | [] => M.fnil
  | (k, v) :: rest => M.fcons k v rest (json_induct M v) (fields_induct M rest)

/-- Induction over an element list from the motives `M`. -/
theorem elems_induct {P F E} (M : JsonMotives P F E) : ∀ es : List Json, E es
  | [] => M.enil
  | v :: rest => M.econs v rest (json_induct M v) (elems_induct M rest)
end

/-! ### Sanitizer lemmas -/

lemma removedKey_false (hasId : Bool) (k : String) (h : removedKey hasId k = false) :
    UI_EXTRA_KEYS.contains k = false ∧ (hasId && k == "title") = false := by
  unfold removedKey at h
  constructor
  · cases hc : UI_EXTRA_KEYS.contains k
    · rfl
    · rw [hc] at h
      simp at h
  · cases hc : hasId && k == "title"
    · rfl
    · rw [hc] at h
      simp at h

lemma sanitizeFields_keys (hasId : Bool) (fields : List (String × Json)) (path : String) :
    (sanitizeFields hasId fields path).1.map Prod.fst
      = (fields.map Prod.fst).filter (fun k => !(removedKey hasId k)) := by
  induction fields with
  | nil => simp [sanitizeFields]
  | cons p rest ih =>
      obtain ⟨k, v⟩ := p
      rw [List.map_cons, List.filter_cons]
      cases hrem : removedKey hasId k
      · obtain ⟨h1, h2⟩ := removedKey_false hasId k hrem
        simp only [sanitizeFields, h1, h2, Bool.false_eq_true, if_false, hrem,
          Bool.not_false, if_true, List.map_cons]
        rw [ih]
      · simp only [hrem, Bool.not_true, Bool.false_eq_true, if_false]
        cases hc : UI_EXTRA_KEYS.contains k
        · have h2 : (hasId && k == "title") = true := by
            unfold removedKey at hrem
            rw [hc, Bool.false_or] at hrem
            exact hrem
          simp only [sanitizeFields, hc, Bool.false_eq_true, if_false, h2, if_true]
          exact ih
        · simp only [sanitizeFields, hc, if_true]
          exact ih

lemma hasIdKey_map (l : List (String × Json)) :
    hasIdKey l = (l.map Prod.fst).any (fun s => s == "id") := by
  induction l with
  | nil => rfl
  | cons p rest ih =>
      simp only [hasIdKey, List.any_cons, List.map_cons] at ih ⊢
      rw [ih]

lemma any_id_filter_removed (hasId : Bool) (ks : List String) :
    (ks.filter (fun k => !(removedKey hasId k))).any (fun s => s == "id")
      = ks.any (fun s => s == "id") := by
  induction ks with
  | nil => rfl
  | cons k ks ih =>
      rw [List.filter_cons]
      cases hrem : removedKey hasId k
      · simp only [hrem, Bool.not_false, if_true, List.any_cons, ih]
      · have hk : (k == "id") = false := by
          cases hbeq : k == "id"
          · rfl
          · have hkid : k = "id" := eq_of_beq hbeq
            subst hkid
            have hfalse : removedKey hasId "id" = false := by cases hasId <;> decide
            rw [hfalse] at hrem
            simp at hrem
        simp only [hrem, Bool.not_true, Bool.false_eq_true, if_false, List.any_cons, hk,
          Bool.false_or, ih]

lemma hasIdKey_sanitizeFields (hasId : Bool) (fields : List (String × Json)) (path : String) :
    hasIdKey (sanitizeFields hasId fields path).1 = hasIdKey fields := by
  rw [hasIdKey_map, hasIdKey_map, sanitizeFields_keys, any_id_filter_removed]

lemma noVocab_sanitize_all :
    (∀ t : Json, ∀ path, NoVocabExtras (sanitize_rdm_metadata t path).1 = true)
    ∧ (∀ fs : List (String × Json), ∀ hasId path,
         noVocabFields hasId (sanitizeFields hasId fs path).1 = true)
    ∧ (∀ es : List Json, ∀ path, noVocabElems (sanitizeElems es path).1 = true) := by
  have M : JsonMotives
      (fun t => ∀ path, NoVocabExtras (sanitize_rdm_metadata t path).1 = true)
      (fun fs => ∀ hasId path, noVocabFields hasId (sanitizeFields hasId fs path).1 = true)
      (fun es => ∀ path, noVocabElems (sanitizeElems es path).1 = true) := by
    constructor
    · intro fs hF path
      simp only [sanitize_rdm_metadata, NoVocabExtras]
      rw [hasIdKey_sanitizeFields]
      exact hF _ _
    · intro es hE path
      simp only [sanitize_rdm_metadata, NoVocabExtras]
      exact hE _
    · intro s path
      simp [sanitize_rdm_metadata, NoVocabExtras]
    · intro n path
      simp [sanitize_rdm_metadata, NoVocabExtras]
    · intro b path
      simp [sanitize_rdm_metadata, NoVocabExtras]
    · intro path
      simp [sanitize_rdm_metadata, NoVocabExtras]
    · intro hasId path
      simp [sanitizeFields, noVocabFields]
    · intro k v rest hP hF hasId path
      simp only [sanitizeFields]
      cases hc : UI_EXTRA_KEYS.contains k
      · cases h2 : hasId && k == "title"
        · simp only [Bool.false_eq_true, if_false, noVocabFields, hc, h2, Bool.not_false,
            Bool.true_and, hP, hF, Bool.and_self]
        · simp only [Bool.false_eq_true, if_false, h2, if_true]
          exact hF hasId path
      · simp only [hc, if_true]
        exact hF hasId path
    · intro path
      simp [sanitizeElems, noVocabElems]
    · intro v rest hP hE path
      simp only [sanitizeElems, noVocabElems, hP, hE, Bool.and_self]
  exact ⟨fun t => json_induct M t, fun fs => fields_induct M fs, fun es => elems_induct M es⟩

lemma contains_of_subset {R S : List String} (h : ∀ s, s ∈ R → s ∈ S) {x : String}
    (hx : R.contains x = true) : S.contains x = true :=
  List.elem_iff.mpr (h x (List.elem_iff.mp hx))

lemma title_cond_true {hasId : Bool} {k : String} (h : (hasId && k == "title") = true) :
    hasId = true ∧ (k == "title") = true := by
  simpa using h

lemma title_cond_false {hasId : Bool} {k : String} (h : (hasId && k == "title") = false) :
    ¬(hasId = true ∧ (k == "title") = true) := by
  intro hand
  rw [hand.1, hand.2] at h
  simp at h

lemma reported_mono_all :
    (∀ t : Json, ∀ R S path, (∀ s, s ∈ R → s ∈ S) →
       ReportedIn R t path = true → ReportedIn S t path = true)
    ∧ (∀ fs : List (String × Json), ∀ R S hasId path, (∀ s, s ∈ R → s ∈ S) →
         reportedFields R hasId fs path = true → reportedFields S hasId fs path = true)
    ∧ (∀ es : List Json, ∀ R S path, (∀ s, s ∈ R → s ∈ S) →
         reportedElems R es path = true → reportedElems S es path = true) := by
  have M : JsonMotives
      (fun t => ∀ R S path, (∀ s, s ∈ R → s ∈ S) →
        ReportedIn R t path = true → ReportedIn S t path = true)
      (fun fs => ∀ R S hasId path, (∀ s, s ∈ R → s ∈ S) →
        reportedFields R hasId fs path = true → reportedFields S hasId fs path = true)
      (fun es => ∀ R S path, (∀ s, s ∈ R → s ∈ S) →
        reportedElems R es path = true → reportedElems S es path = true) := by
    constructor
    · intro fs hF R S path hsub h
      simp only [ReportedIn] at h ⊢
      exact hF R S _ path hsub h
    · intro es hE R S path hsub h
      simp only [ReportedIn] at h ⊢
      exact hE R S path hsub h
    · intro s R S path hsub h
      simp [ReportedIn]
    · intro n R S path hsub h
      simp [ReportedIn]
    · intro b R S path hsub h
      simp [ReportedIn]
    · intro R S path hsub h
      simp [ReportedIn]
    · intro R S hasId path hsub h
      simp [reportedFields]
    · intro k v rest hP hF R S hasId path hsub h
      simp only [reportedFields, Bool.and_eq_true] at h ⊢
      refine ⟨?_, hF R S hasId path hsub h.2⟩
      have h1 := h.1
      cases hc : UI_EXTRA_KEYS.contains k
      · simp only [hc, Bool.false_eq_true, if_false] at h1 ⊢
        cases h2 : hasId && k == "title"
        · rw [if_neg (title_cond_false h2)] at h1 ⊢
          exact hP R S _ hsub h1
        · rw [if_pos (title_cond_true h2)] at h1 ⊢
          exact contains_of_subset hsub h1
      · simp only [hc, if_true] at h1 ⊢
        exact contains_of_subset hsub h1
    · intro R S path hsub h
      simp [reportedElems]
    · intro v rest hP hE R S path hsub h
      simp only [reportedElems, Bool.and_eq_true] at h ⊢
      exact ⟨hP R S _ hsub h.1, hE R S path hsub h.2⟩
  exact ⟨fun t => json_induct M t, fun fs => fields_induct M fs, fun es => elems_induct M es⟩

lemma reported_sanitize_all :
    (∀ t : Json, ∀ path, ReportedIn (sanitize_rdm_metadata t path).2 t path = true)
    ∧ (∀ fs : List (String × Json), ∀ hasId path,
         reportedFields (sanitizeFields hasId fs path).2 hasId fs path = true)
    ∧ (∀ es : List Json, ∀ path,
         reportedElems (sanitizeElems es path).2 es path = true) := by
  have M : JsonMotives
      (fun t => ∀ path, ReportedIn (sanitize_rdm_metadata t path).2 t path = true)
      (fun fs => ∀ hasId path,
        reportedFields (sanitizeFields hasId fs path).2 hasId fs path = true)
      (fun es => ∀ path, reportedElems (sanitizeElems es path).2 es path = true) := by
    constructor
    · intro fs hF path
      simp only [sanitize_rdm_metadata, ReportedIn]
      exact hF _ _
    · intro es hE path
      simp only [sanitize_rdm_metadata, ReportedIn]
      exact hE _
    · intro s path
      simp [sanitize_rdm_metadata, ReportedIn]
    · intro n path
      simp [sanitize_rdm_metadata, ReportedIn]
    · intro b path
      simp [sanitize_rdm_metadata, ReportedIn]
    · intro path
      simp [sanitize_rdm_metadata, ReportedIn]
    · intro hasId path
      simp [sanitizeFields, reportedFields]
    · intro k v rest hP hF hasId path
      simp only [sanitizeFields]
      cases hc : UI_EXTRA_KEYS.contains k
      · cases h2 : hasId && k == "title"
        · -- kept: report is (sanitize v np).2 ++ (sanitizeFields hasId rest path).2
          simp only [Bool.false_eq_true, if_false, hc, h2, reportedFields, Bool.and_eq_true]
          constructor
          · exact reported_mono_all.1 v _ _ _
              (fun s hs => List.mem_append.mpr (Or.inl hs)) (hP _)
          · exact reported_mono_all.2.1 rest _ _ hasId path
              (fun s hs => List.mem_append.mpr (Or.inr hs)) (hF hasId path)
        · -- removed via title rule: report is np :: rest's report
          simp only [Bool.false_eq_true, if_false, hc, h2, if_true, reportedFields,
            Bool.and_eq_true]
          constructor
          · exact List.elem_iff.mpr (List.mem_cons_self _ _)
          · exact reported_mono_all.2.1 rest _ _ hasId path
              (fun s hs => List.mem_cons_of_mem _ hs) (hF hasId path)
      · simp only [hc, if_true, reportedFields, Bool.and_eq_true]
        constructor
        · exact List.elem_iff.mpr (List.mem_cons_self _ _)
        · exact reported_mono_all.2.1 rest _ _ hasId path
            (fun s hs => List.mem_cons_of_mem _ hs) (hF hasId path)
    · intro path
      simp [sanitizeElems, reportedElems]
    · intro v rest hP hE path
      simp only [sanitizeElems, reportedElems, Bool.and_eq_true]
      constructor
      · exact reported_mono_all.1 v _ _ _
          (fun s hs => List.mem_append.mpr (Or.inl hs)) (hP _)
      · exact reported_mono_all.2.2 rest _ _ path
          (fun s hs => List.mem_append.mpr (Or.inr hs)) (hE path)
  exact ⟨fun t => json_induct M t, fun fs => fields_induct M fs, fun es => elems_induct M es⟩

lemma sanitize_fixpoint_all :
    (∀ t : Json, NoVocabExtras t = true → ∀ path, sanitize_rdm_metadata t path = (t, []))
    ∧ (∀ fs : List (String × Json), ∀ hasId, noVocabFields hasId fs = true →
         ∀ path, sanitizeFields hasId fs path = (fs, []))
    ∧ (∀ es : List Json, noVocabElems es = true → ∀ path, sanitizeElems es path = (es, [])) := by
  have M : JsonMotives
      (fun t => NoVocabExtras t = true → ∀ path, sanitize_rdm_metadata t path = (t, []))
      (fun fs => ∀ hasId, noVocabFields hasId fs = true →
        ∀ path, sanitizeFields hasId fs path = (fs, []))
      (fun es => noVocabElems es = true → ∀ path, sanitizeElems es path = (es, [])) := by
    constructor
    · intro fs hF hclean path
      simp only [NoVocabExtras] at hclean
      simp only [sanitize_rdm_metadata, hF (hasIdKey fs) hclean path]
    · intro es hE hclean path
      simp only [NoVocabExtras] at hclean
      simp only [sanitize_rdm_metadata, hE hclean path]
    · intro s hclean path
      simp [sanitize_rdm_metadata]
    · intro n hclean path
      simp [sanitize_rdm_metadata]
    · intro b hclean path
      simp [sanitize_rdm_metadata]
    · intro hclean path
      simp [sanitize_rdm_metadata]
    · intro hasId hclean path
      simp [sanitizeFields]
    · intro k v rest hP hF hasId hclean path
      simp only [noVocabFields, Bool.and_eq_true] at hclean
      obtain ⟨⟨⟨hk1, hk2⟩, hkv⟩, hkrest⟩ := hclean
      have h1 : UI_EXTRA_KEYS.contains k = false := by
        cases hc : UI_EXTRA_KEYS.contains k
        · rfl
        · rw [hc] at hk1
          simp at hk1
      have h2 : (hasId && k == "title") = false := by
        cases hc : hasId && k == "title"
        · rfl
        · rw [hc] at hk2
          simp at hk2
      simp only [sanitizeFields, h1, h2, Bool.false_eq_true, if_false,
        hP hkv, hF hasId hkrest path, List.nil_append]
    · intro hclean path
      simp [sanitizeElems]
    · intro v rest hP hE hclean path
      simp only [noVocabElems, Bool.and_eq_true] at hclean
      simp only [sanitizeElems, hP hclean.1, hE hclean.2 path, List.nil_append]
  exact ⟨fun t => json_induct M t, fun fs => fields_induct M fs, fun es => elems_induct M es⟩

lemma scan_eq_sanitize_report_all :
    (∀ t : Json, ∀ path found,
       scan_vocab_extras t path found = found ++ (sanitize_rdm_metadata t path).2)
    ∧ (∀ fs : List (String × Json), ∀ hasId path found,
         scanFields hasId fs path found = found ++ (sanitizeFields hasId fs path).2)
    ∧ (∀ es : List Json, ∀ path found,
         scanElems es path found = found ++ (sanitizeElems es path).2) := by
  have M : JsonMotives
      (fun t => ∀ path found,
        scan_vocab_extras t path found = found ++ (sanitize_rdm_metadata t path).2)
      (fun fs => ∀ hasId path found,
        scanFields hasId fs path found = found ++ (sanitizeFields hasId fs path).2)
      (fun es => ∀ path found,
        scanElems es path found = found ++ (sanitizeElems es path).2) := by
    constructor
    · intro fs hF path found
      simp only [scan_vocab_extras, sanitize_rdm_metadata]
      exact hF _ _ _
    · intro es hE path found
      simp only [scan_vocab_extras, sanitize_rdm_metadata]
      exact hE _ _
    · intro s path found
      simp [scan_vocab_extras, sanitize_rdm_metadata]
    · intro n path found
      simp [scan_vocab_extras, sanitize_rdm_metadata]
    · intro b path found
      simp [scan_vocab_extras, sanitize_rdm_metadata]
    · intro path found
      simp [scan_vocab_extras, sanitize_rdm_metadata]
    · intro hasId path found
      simp [scanFields, sanitizeFields]
    · intro k v rest hP hF hasId path found
      simp only [scanFields, sanitizeFields]
      cases hc : UI_EXTRA_KEYS.contains k
      · cases h2 : hasId && k == "title"
        · simp only [hc, h2, Bool.false_eq_true, if_false, hF, hP, List.append_assoc]
        · simp only [hc, h2, Bool.false_eq_true, if_false, if_true, hF, List.append_assoc,
            List.singleton_append]
      · simp only [hc, if_true, hF, List.append_assoc, List.singleton_append]
    · intro path found
      simp [scanElems, sanitizeElems]
    · intro v rest hP hE path found
      simp only [scanElems, sanitizeElems, hE, hP, List.append_assoc]
  exact ⟨fun t => json_induct M t, fun fs => fields_induct M fs, fun es => elems_induct M es⟩

lemma hasIdKey_middle (pre post : List (String × Json)) (k : String) (v v' : Json) :
    hasIdKey (pre ++ (k, v) :: post) = hasIdKey (pre ++ (k, v') :: post) := by
  simp [hasIdKey, List.any_append, List.any_cons]

lemma sanitizeFields_removed_irrelevant (hasId : Bool) (k : String) (v v' : Json)
    (post : List (String × Json)) (path : String) (hrem : removedKey hasId k = true) :
    ∀ pre : List (String × Json),
      sanitizeFields hasId (pre ++ (k, v) :: post) path
        = sanitizeFields hasId (pre ++ (k, v') :: post) path := by
  intro pre
  induction pre with
  | nil =>
      simp only [List.nil_append, sanitizeFields]
      cases hc : UI_EXTRA_KEYS.contains k
      · have h2 : (hasId && k == "title") = true := by
          unfold removedKey at hrem
          rw [hc, Bool.false_or] at hrem
          exact hrem
        simp only [hc, Bool.false_eq_true, if_false, h2, if_true]
      · simp only [hc, if_true]
  | cons p pre ih =>
      obtain ⟨k0, v0⟩ := p
      simp only [List.cons_append, sanitizeFields]
      cases hc : UI_EXTRA_KEYS.contains k0
      · cases h2 : hasId && k0 == "title"
        · simp only [hc, h2, Bool.false_eq_true, if_false, List.append_eq, ih]
        · simp only [hc, h2, Bool.false_eq_true, if_false, if_true, List.append_eq, ih]
      · simp only [hc, if_true, List.append_eq, ih]

lemma scanFields_removed_irrelevant (hasId : Bool) (k : String) (v v' : Json)
    (post : List (String × Json)) (path : String) (hrem : removedKey hasId k = true) :
    ∀ (pre : List (String × Json)) (found : List String),
      scanFields hasId (pre ++ (k, v) :: post) path found
        = scanFields hasId (pre ++ (k, v') :: post) path found := by
  intro pre
  induction pre with
  | nil =>
      intro found
      simp only [List.nil_append, scanFields]
      cases hc : UI_EXTRA_KEYS.contains k
      · have h2 : (hasId && k == "title") = true := by
          unfold removedKey at hrem
          rw [hc, Bool.false_or] at hrem
          exact hrem
        simp only [hc, Bool.false_eq_true, if_false, h2, if_true]
      · simp only [hc, if_true]
  | cons p pre ih =>
      obtain ⟨k0, v0⟩ := p
      intro found
      simp only [List.cons_append, scanFields]
      cases hc : UI_EXTRA_KEYS.contains k0
      · cases h2 : hasId && k0 == "title"
        · simp only [hc, h2, Bool.false_eq_true, if_false, List.append_eq, ih]
        · simp only [hc, h2, Bool.false_eq_true, if_false, if_true, List.append_eq, ih]
      · simp only [hc, if_true, List.append_eq, ih]

/-! ### dict lemmas for build_metadata_schema -/

lemma dictGet_cons_eq (k : String) (x : Json) (d : List (String × Json)) :
    dictGet ((k, x) :: d) k = some x := by
  simp [dictGet, List.find?_cons]

lemma dictGet_cons_ne (k k' : String) (h : k ≠ k') (x : Json) (d : List (String × Json)) :
    dictGet ((k, x) :: d) k' = dictGet d k' := by
  simp [dictGet, List.find?_cons, h]

lemma dictGet_eq_none (d : List (String × Json)) (k : String) (h : k ∉ d.map Prod.fst) :
    dictGet d k = none := by
  unfold dictGet
  rw [List.find?_eq_none.mpr]
  · rfl
  · intro p hp hk
    exact h (List.mem_map.mpr ⟨p, hp, eq_of_beq hk⟩)

lemma map_keep_ne (x : Json) (s : String) :
    ∀ pre : List (String × Json), (∀ q ∈ pre, q.1 ≠ s) →
      pre.map (fun p => if p.1 == s then (s, x) else p) = pre := by
  intro pre
  induction pre with
  | nil => intro _; rfl
  | cons q pre ih =>
      intro hpre
      rw [List.map_cons, ih (fun r hr => hpre r (List.mem_cons_of_mem _ hr))]
      have hq : q.1 ≠ s := hpre q (List.mem_cons_self q pre)
      congr 1
      simp [hq]

lemma dictSet_replace_head (v x : Json) (pre : List (String × Json))
    (hpreS : ∀ q ∈ pre, q.1 ≠ "$schema") :
    dictSet (("$schema", v) :: pre) "$schema" x = ("$schema", x) :: pre := by
  unfold dictSet dictHasKey
  rw [if_pos (by simp)]
  rw [List.map_cons, map_keep_ne x "$schema" pre hpreS]
  rfl

lemma dictSet_append_new (v x : Json) (k : String) (pre : List (String × Json))
    (hk : k ≠ "$schema") (hkpre : ∀ q ∈ pre, k ≠ q.1) :
    dictSet (("$schema", v) :: pre) k x = ("$schema", v) :: (pre ++ [(k, x)]) := by
  unfold dictSet dictHasKey
  rw [if_neg]
  · simp
  · simp only [List.any_cons, Bool.or_eq_true, List.any_eq_true]
    rintro (h | ⟨p, hp, hpk⟩)
    · exact hk (eq_of_beq h).symm
    · exact hkpre p hp (eq_of_beq hpk).symm

lemma dictUpdate_schema (md : List (String × Json)) :
    ∀ (v : Json) (pre : List (String × Json)),
      (md.map Prod.fst).Nodup →
      (∀ p ∈ md, ∀ q ∈ pre, p.1 ≠ q.1) →
      (∀ q ∈ pre, q.1 ≠ "$schema") →
      dictUpdate (("$schema", v) :: pre) md
        = ("$schema", (dictGet md "$schema").getD v)
            :: (pre ++ md.filter (fun p => !(p.1 == "$schema"))) := by
  induction md with
  | nil =>
      intro v pre _ _ _
      simp [dictUpdate, dictGet]
  | cons p md ih =>
      obtain ⟨k, x⟩ := p
      intro v pre hnd hdisj hpreS
      rw [List.map_cons, List.nodup_cons] at hnd
      obtain ⟨hnotmem, hndt⟩ := hnd
      have step : dictUpdate (("$schema", v) :: pre) ((k, x) :: md)
          = dictUpdate (dictSet (("$schema", v) :: pre) k x) md := rfl
      by_cases hks : k = "$schema"
      · subst hks
        rw [step, dictSet_replace_head v x pre hpreS]
        rw [ih x pre hndt (fun p hp q hq => hdisj p (List.mem_cons_of_mem _ hp) q hq) hpreS]
        rw [dictGet_eq_none md "$schema" hnotmem, dictGet_cons_eq, List.filter_cons]
        simp
      · have hkpre : ∀ q ∈ pre, k ≠ q.1 :=
          fun q hq => hdisj (k, x) (List.mem_cons_self _ _) q hq
        rw [step, dictSet_append_new v x k pre hks hkpre]
        have hdisj2 : ∀ p ∈ md, ∀ q ∈ pre ++ [(k, x)], p.1 ≠ q.1 := by
          intro p hp q hq
          rcases List.mem_append.mp hq with hq | hq
          · exact hdisj p (List.mem_cons_of_mem _ hp) q hq
          · rcases List.mem_singleton.mp hq with rfl
            intro hpk
            exact hnotmem (List.mem_map.mpr ⟨p, hp, hpk⟩)
        have hpreS2 : ∀ q ∈ pre ++ [(k, x)], q.1 ≠ "$schema" := by
          intro q hq
          rcases List.mem_append.mp hq with hq | hq
          · exact hpreS q hq
          · rcases List.mem_singleton.mp hq with rfl
            exact hks
        rw [ih v (pre ++ [(k, x)]) hndt hdisj2 hpreS2]
        rw [dictGet_cons_ne k "$schema" hks x md, List.filter_cons]
        rw [if_pos (by simp [hks])]
        rw [List.append_assoc, List.singleton_append]

/-! ### Claim theorems -/

/-- C1: `sanitize_rdm_metadata` removes, at every mapping node, every direct
key in the fixed enrichment set `UI_EXTRA_KEYS`, plus a direct `title` key
whenever the same mapping has a direct `id` key, and nothing else (in
particular `id` itself survives): the output satisfies `NoVocabExtras`, a
mapping node's surviving keys are exactly the input keys with the removed
ones filtered out, the `id` key is retained, and every removed key's fully
qualified path is in the returned report. -/
theorem sanitize_removes_enrichment_and_reports :
    (∀ (t : Json) (path : String), NoVocabExtras (sanitize_rdm_metadata t path).1 = true)
    ∧ (∀ (fields : List (String × Json)) (path : String),
        ((sanitize_rdm_metadata (Json.obj fields) path).1.objFields).map Prod.fst
          = (fields.map Prod.fst).filter (fun k => !(removedKey (hasIdKey fields) k)))
    ∧ (∀ (fields : List (String × Json)) (path : String),
        hasIdKey ((sanitize_rdm_metadata (Json.obj fields) path).1.objFields)
          = hasIdKey fields)
    ∧ (∀ (t : Json) (path : String),
        ReportedIn (sanitize_rdm_metadata t path).2 t path = true) := by
  refine ⟨noVocab_sanitize_all.1, ?_, ?_, reported_sanitize_all.1⟩
  · intro fields path
    simp only [sanitize_rdm_metadata, Json.objFields]
    exact sanitizeFields_keys _ _ _
  · intro fields path
    simp only [sanitize_rdm_metadata, Json.objFields]
    exact hasIdKey_sanitizeFields _ _ _

/-- C2: sanitization is idempotent: re-sanitizing an already-sanitized tree
returns it unchanged (with an empty report), so two passes equal one. -/
theorem sanitize_rdm_metadata_idempotent (t : Json) :
    sanitize_rdm_metadata (sanitize_rdm_metadata t "").1 ""
      = ((sanitize_rdm_metadata t "").1, []) :=
  sanitize_fixpoint_all.1 _ (noVocab_sanitize_all.1 t "") ""

/-- C3: the read-only scanner and the mutating sanitizer agree on the paths
they identify: the scanner's output list equals the sanitizer's report
exactly, hence in particular as sets. -/
theorem scan_vocab_extras_eq_sanitize_report (t : Json) :
    scan_vocab_extras t "" [] = (sanitize_rdm_metadata t "").2
    ∧ (∀ p, p ∈ scan_vocab_extras t "" [] ↔ p ∈ (sanitize_rdm_metadata t "").2) := by
  have h := scan_eq_sanitize_report_all.1 t "" []
  rw [List.nil_append] at h
  exact ⟨h, fun p => by rw [h]⟩

/-- C5: `sanitize_rdm_metadata` is a total pure function of the tree in this
embedding, and on scalar (neither mapping nor sequence) inputs it returns
the scalar unchanged and produces no removals. -/
theorem sanitize_scalar_identity (t : Json) (path : String) (h : t.isScalar = true) :
    sanitize_rdm_metadata t path = (t, []) := by
  cases t with
  | obj fields => simp [Json.isScalar] at h
  | arr elems => simp [Json.isScalar] at h
  | str s => simp [sanitize_rdm_metadata]
  | num n => simp [sanitize_rdm_metadata]
  | bool b => simp [sanitize_rdm_metadata]
  | null => simp [sanitize_rdm_metadata]

/-- Witness for C5 at the scalar `null` with a nonempty path. -/
theorem sanitize_scalar_identity_witness :
    (Json.null).isScalar = true
    ∧ sanitize_rdm_metadata Json.null "metadata.rights" = (Json.null, []) :=
  ⟨rfl, sanitize_scalar_identity Json.null "metadata.rights" rfl⟩

/-- C6: `finalize_version` resolves a bucket to "v3" when `entries` is
present, to "v2" when `contents` is present instead, and defaults to "v2"
when neither key is present. -/
theorem finalize_version_shapes (bucket : List (String × Json)) :
    (dictHasKey bucket "entries" = true → finalize_version bucket = "v3")
    ∧ (dictHasKey bucket "entries" = false → dictHasKey bucket "contents" = true →
        finalize_version bucket = "v2")
    ∧ (dictHasKey bucket "entries" = false → dictHasKey bucket "contents" = false →
        finalize_version bucket = "v2") := by
  unfold finalize_version
  refine ⟨?_, ?_, ?_⟩
  · intro h1
    rw [if_pos h1]
  · intro h1 h2
    rw [if_neg (by simp [h1]), if_pos h2]
  · intro h1 h2
    rw [if_neg (by simp [h1]), if_neg (by simp [h2])]

/-- Witness for C6: one bucket per shape. -/
theorem finalize_version_shapes_witness :
    finalize_version [("entries", Json.arr [])] = "v3"
    ∧ finalize_version [("contents", Json.arr [])] = "v2"
    ∧ finalize_version [] = "v2" :=
  ⟨(finalize_version_shapes [("entries", Json.arr [])]).1 (by decide),
   (finalize_version_shapes [("contents", Json.arr [])]).2.1 (by decide) (by decide),
   (finalize_version_shapes []).2.2 (by decide) (by decide)⟩

/-- C9: the `entries` check runs first, so a bucket containing both
`entries` and `contents` resolves to "v3". -/
theorem finalize_version_entries_precedence (bucket : List (String × Json))
    (h1 : dictHasKey bucket "entries" = true)
    (h2 : dictHasKey bucket "contents" = true) :
    finalize_version bucket = "v3" := by
  unfold finalize_version
  rw [if_pos h1]

/-- Witness for C9: a bucket carrying both keys. -/
theorem finalize_version_entries_precedence_witness :
    dictHasKey [("entries", Json.arr []), ("contents", Json.arr [])] "entries" = true
    ∧ dictHasKey [("entries", Json.arr []), ("contents", Json.arr [])] "contents" = true
    ∧ finalize_version [("entries", Json.arr []), ("contents", Json.arr [])] = "v3" :=
  ⟨by decide, by decide,
   finalize_version_entries_precedence
     [("entries", Json.arr []), ("contents", Json.arr [])] (by decide) (by decide)⟩

/-- C7: when the search response's total is zero the run ends at the search
step: without `--error-if-no-records-present` the remaining stdout ends
with the line `OK` and the exit code is 0; with the flag the CRITICAL
no-records line is printed and the exit code is 2. -/
theorem zero_hits_ends_run (search : List (String × Json)) (errorIfEmpty : Bool)
    (verbosity : Nat) (t : Json) (ht : searchTotal search = Except.ok t)
    (hz : pyEqZero t = true) :
    searchStep search errorIfEmpty verbosity
      = Except.ok (StepResult.exited
          (if errorIfEmpty then ["hits: " ++ pyStr t, critNoRecordsLine]
           else ["hits: " ++ pyStr t]
                  ++ (if 0 < verbosity then [dashesLine] else []) ++ ["OK"])
          (if 1 < verbosity then [noResultsStderrLine] else [])
          (if errorIfEmpty then 2 else 0))
    ∧ (errorIfEmpty = false →
        (["hits: " ++ pyStr t] ++ (if 0 < verbosity then [dashesLine] else [])
            ++ ["OK"]).getLast? = some "OK")
    ∧ (errorIfEmpty = true →
        critNoRecordsLine ∈ ["hits: " ++ pyStr t, critNoRecordsLine]) := by
  refine ⟨?_, ?_, ?_⟩
  · unfold searchStep
    rw [ht]
    simp only [hz, if_true]
    cases errorIfEmpty
    · simp
    · simp
  · intro h
    by_cases hv : 0 < verbosity
    · rw [if_pos hv]
      rfl
    · rw [if_neg hv]
      rfl
  · intro h
    simp

/-- Witness for C7: a zero-hit search response under both flag settings. -/
theorem zero_hits_ends_run_witness :
    searchTotal [("hits", Json.obj [("total", Json.num 0)])] = Except.ok (Json.num 0)
    ∧ pyEqZero (Json.num 0) = true
    ∧ searchStep [("hits", Json.obj [("total", Json.num 0)])] false 0
        = Except.ok (StepResult.exited ["hits: 0", "OK"] [] 0)
    ∧ searchStep [("hits", Json.obj [("total", Json.num 0)])] true 0
        = Except.ok (StepResult.exited ["hits: 0", critNoRecordsLine] [] 2) := by
  refine ⟨rfl, rfl, ?_, ?_⟩
  · exact (zero_hits_ends_run [("hits", Json.obj [("total", Json.num 0)])] false 0
      (Json.num 0) rfl rfl).1
  · exact (zero_hits_ends_run [("hits", Json.obj [("total", Json.num 0)])] true 0
      (Json.num 0) rfl rfl).1

/-- C8: in the lenient (non-strict) v3 path a schema-validation failure is
caught and never escapes the block (so the run's verdict and exit code are
unchanged and it proceeds to the file check); it is surfaced on stderr only
when verbosity exceeds level 2 and is silently ignored otherwise. -/
theorem lenient_validation_nonfatal (e : Option String) (verbosity : Nat) :
    (nonStrictValidate e verbosity).propagated = none
    ∧ (verbosity ≤ 2 → (nonStrictValidate e verbosity).stderrLines = [])
    ∧ (e = none → (nonStrictValidate e verbosity).stderrLines = [])
    ∧ (∀ msg, e = some msg → 2 < verbosity →
        (nonStrictValidate e verbosity).stderrLines
          = ["WARNING: Non-strict metadata validation warning:", "Details: " ++ msg]) := by
  refine ⟨?_, ?_, ?_, ?_⟩
  · cases e <;> rfl
  · intro hv
    cases e with
    | none => rfl
    | some msg =>
        simp only [nonStrictValidate]
        rw [if_neg (by omega)]
  · intro he
    subst he
    rfl
  · intro msg he hv
    subst he
    simp only [nonStrictValidate]
    rw [if_pos hv]

/-- Witness for C8: a failing validation at verbosity 3 warns on stderr
but propagates nothing; at verbosity 2 it is silent. -/
theorem lenient_validation_nonfatal_witness :
    (nonStrictValidate (some "boom") 3).propagated = none
    ∧ (nonStrictValidate (some "boom") 3).stderrLines
        = ["WARNING: Non-strict metadata validation warning:", "Details: " ++ "boom"]
    ∧ (nonStrictValidate (some "boom") 2).stderrLines = [] :=
  ⟨(lenient_validation_nonfatal (some "boom") 3).1,
   (lenient_validation_nonfatal (some "boom") 3).2.2.2 "boom" rfl (by decide),
   (lenient_validation_nonfatal (some "boom") 2).2.1 (by decide)⟩

/-- C4 counterexample: `md_schema.update(md)` lets a `$schema` key inside
`properties.metadata` overwrite the value taken from the parent, so the
returned `$schema` is NOT copied from the parent schema on this input. -/
theorem build_metadata_schema_inner_schema_wins :
    build_metadata_schema parentWithInnerSchema
      = Except.ok [("$schema", Json.str "https://example.org/other-schema"),
                   ("type", Json.str "object")]
    ∧ dictGet parentWithInnerSchema "$schema"
        = some (Json.str "http://json-schema.org/draft-07/schema#")
    ∧ Json.str "https://example.org/other-schema"
        ≠ Json.str "http://json-schema.org/draft-07/schema#" := by
  refine ⟨rfl, rfl, ?_⟩
  intro h
  injection h with h
  exact absurd h (by decide)

/-- C4 (amended): when `properties.metadata` resolves to a mapping with
distinct keys, `build_metadata_schema` returns a document whose keys are
`$schema` followed by the metadata sub-schema's other keys, where the
`$schema` value is the sub-schema's own `$schema` when it has one and
otherwise the parent's (defaulting to the draft-07 URI); when
`properties.metadata` is absent or not a mapping it raises `KeyError`,
except that a truthy non-mapping `properties` value raises
`AttributeError` instead. -/
theorem build_metadata_schema_characterization (parent : List (String × Json)) :
    (∀ propFields mdFields,
       pyOr (dictGet parent "properties") (Json.obj []) = Json.obj propFields →
       dictGet propFields "metadata" = some (Json.obj mdFields) →
       (mdFields.map Prod.fst).Nodup →
       build_metadata_schema parent
         = Except.ok (("$schema",
               (dictGet mdFields "$schema").getD
                 ((dictGet parent "$schema").getD (Json.str draft07Uri)))
             :: mdFields.filter (fun p => !(p.1 == "$schema"))))
    ∧ (∀ propFields,
       pyOr (dictGet parent "properties") (Json.obj []) = Json.obj propFields →
       (∀ j, dictGet propFields "metadata" = some j → j.isObj = false) →
       build_metadata_schema parent = Except.error PyError.keyError)
    ∧ (∀ propFields,
       pyOr (dictGet parent "properties") (Json.obj []) = Json.obj propFields →
       dictGet propFields "metadata" = none →
       build_metadata_schema parent = Except.error PyError.keyError)
    ∧ ((pyOr (dictGet parent "properties") (Json.obj [])).isObj = false →
       build_metadata_schema parent = Except.error PyError.attributeError) := by
  refine ⟨?_, ?_, ?_, ?_⟩
  · intro propFields mdFields hp hm hnd
    unfold build_metadata_schema
    rw [hp]
    simp only [hm]
    rw [dictUpdate_schema mdFields _ [] hnd (fun p _ q hq => absurd hq (List.not_mem_nil q))
      (fun q hq => absurd hq (List.not_mem_nil q))]
    rw [List.nil_append]
  · intro propFields hp hnm
    unfold build_metadata_schema
    rw [hp]
    cases hget : dictGet propFields "metadata" with
    | none => simp only [hget]
    | some j =>
        cases j with
        | obj mdFields => exact absurd (hnm (Json.obj mdFields) hget) (by simp [Json.isObj])
        | arr es => simp only [hget]
        | str s => simp only [hget]
        | num n => simp only [hget]
        | bool b => simp only [hget]
        | null => simp only [hget]
  · intro propFields hp hnone
    unfold build_metadata_schema
    rw [hp]
    simp only [hnone]
  · intro hno
    unfold build_metadata_schema
    cases hJ : pyOr (dictGet parent "properties") (Json.obj []) with
    | obj propFields => rw [hJ] at hno; simp [Json.isObj] at hno
    | arr es => simp only [hJ]
    | str s => simp only [hJ]
    | num n => simp only [hJ]
    | bool b => simp only [hJ]
    | null => simp only [hJ]

/-- Witness for the amended C4 on a parent without a top-level `$schema`,
exercising the draft-07 default. -/
theorem build_metadata_schema_characterization_witness :
    build_metadata_schema parentPlain
      = Except.ok [("$schema", Json.str draft07Uri), ("type", Json.str "object")] := by
  have h := (build_metadata_schema_characterization parentPlain).1
      [("metadata", Json.obj [("type", Json.str "object")])]
      [("type", Json.str "object")] rfl rfl (by decide)
  exact h

/-- C10: neither traversal visits the value of a removed key: replacing the
whole value stored under a removed key (a `UI_EXTRA_KEYS` key, or `title`
next to an `id`) changes neither the sanitized tree, nor the report, nor
the scanner's output, so nested enrichment keys inside a removed value
contribute no report paths. -/
theorem removed_value_unvisited (pre post : List (String × Json)) (k : String)
    (v v' : Json) (path : String)
    (hrem : removedKey (hasIdKey (pre ++ (k, v) :: post)) k = true) :
    sanitize_rdm_metadata (Json.obj (pre ++ (k, v) :: post)) path
      = sanitize_rdm_metadata (Json.obj (pre ++ (k, v') :: post)) path
    ∧ (∀ found, scan_vocab_extras (Json.obj (pre ++ (k, v) :: post)) path found
        = scan_vocab_extras (Json.obj (pre ++ (k, v') :: post)) path found) := by
  have hid := hasIdKey_middle pre post k v v'
  have hrem2 : removedKey (hasIdKey (pre ++ (k, v') :: post)) k = true := by
    rw [← hid]
    exact hrem
  constructor
  · simp only [sanitize_rdm_metadata]
    rw [hid]
    rw [sanitizeFields_removed_irrelevant (hasIdKey (pre ++ (k, v') :: post))
      k v v' post path hrem2 pre]
  · intro found
    simp only [scan_vocab_extras]
    rw [hid]
    rw [scanFields_removed_irrelevant (hasIdKey (pre ++ (k, v') :: post))
      k v v' post path hrem2 pre found]

/-- Witness for C10: an `icon` key whose mapping value holds further
enrichment keys is dropped whole, identically to a null value. -/
theorem removed_value_unvisited_witness :
    removedKey (hasIdKey ([] ++ ("icon", Json.obj [("links", Json.str "x")]) :: [])) "icon"
      = true
    ∧ sanitize_rdm_metadata
        (Json.obj ([] ++ ("icon", Json.obj [("links", Json.str "x")]) :: [])) ""
      = sanitize_rdm_metadata (Json.obj ([] ++ ("icon", Json.null) :: [])) "" :=
  ⟨by decide,
   (removed_value_unvisited [] [] "icon" (Json.obj [("links", Json.str "x")])
     Json.null "" (by decide)).1⟩
